import Mathlib

/-!
Verification development for the persistent-state coordinator of
passcode-master (src/src/database.rs and src/src/platform.rs).

The store is modelled shallowly: each SQLite table is a Lean list of row
structures held in insertion (rowid) order, the single connection plus the
broadcast channel become a `DB` record, and every store operation of
`Database` becomes a pure function on `DB`.  Operations that can fail with
a store error (an SQLite uniqueness violation on a plain `INSERT`) return
`Except DBError`; operations whose SQL cannot fail at the logic level
(`SELECT`, guarded `UPDATE`) are total.

The `AccessLevel` type is referenced throughout the sources but its
defining module is not part of the given tree; it is modelled from the
specification (see its doc comment).
-/

namespace PasscodeMaster

/-- Store-level error: the only logic-level failure of the modelled SQL is a
uniqueness violation on an unguarded `INSERT`. -/
inductive DBError
  | uniqueViolation
deriving Repr, DecidableEq

/-- Broadcast events, from `v2::BroadcastEvent` in database.rs. -/
inductive BroadcastEvent
  | NewCode (code : String)
  | Exit
deriving Repr, DecidableEq

/-- Row of the `users` table: `id` primary key, `authorized` holds the raw
access-level value as the callers in platform.rs and database.rs read it. -/
structure User where
  id : Int
  authorized : Int
deriving Repr, DecidableEq

/-- Row of the `codes` table (`code` unique, `message_id` unique, `fr`). -/
structure CodeRow where
  code : String
  message_id : Int
  fr : Bool
deriving Repr, DecidableEq

/-- Row of the `cookies` table. -/
structure Cookie where
  id : String
  csrf_token : String
  session_id : String
  last_login : Int
  belong : Int
  enabled : Bool
deriving Repr, DecidableEq

/-- Row of the `history` table (`entry_id` is the autoincrement key). -/
structure HistoryRow where
  entry_id : Int
  timestamp : Int
  id : String
  code : String
  error : Option String
deriving Repr, DecidableEq

/-- Projection returned by `log_query` / `log_query_all`, which select only
`timestamp`, `id`, `code`, `error` (the shape of `types::HistoryRow`). -/
structure HistoryRowOut where
  timestamp : Int
  id : String
  code : String
  error : Option String
deriving Repr, DecidableEq

/-- The store plus the broadcast side channel.  Each list holds the rows of
one table in rowid (insertion) order.  `metaTable` records whether the
`meta` table exists in `sqlite_master`; `broadcastLog` records the events
sent on the broadcast channel; `closed` records whether the connection was
closed. -/
structure DB where
  metaTable : Bool
  meta : List (String × String)
  users : List User
  codes : List CodeRow
  cookies : List Cookie
  history : List HistoryRow
  broadcastLog : List BroadcastEvent
  closed : Bool
deriving Repr, DecidableEq

/-- Modelled from the spec: the `AccessLevel` capability type used by
platform.rs and database.rs is not under src/ (only its callers are).  The
spec describes it as a bitwise capability value with a lowest no-access
level, levels for sending and for cookie management, and a reserved
all-access sentinel whose value overlaps every possible request. -/
inductive AccessLevel
  | NoAccess
  | Send
  | Cookie
  | All
deriving Repr, DecidableEq

/-- Modelled from the spec: the numeric value stored in `users.authorized`
for each capability; the no-access level is the lowest value and the
all-access sentinel is a distinct positive bit. -/
def AccessLevel.i32 : AccessLevel → Int
  | .NoAccess => 0
  | .Send => 1
  | .Cookie => 2
  | .All => 4

/-- Modelled from the spec: the authorization test is bitwise-or overlap —
a caller is authorized for a requested capability if
`requested | stored > 0`. -/
def AccessLevel.required (level : AccessLevel) (stored : Int) : Bool :=
  decide (0 < Int.lor level.i32 stored)

/-- Version string of `v1::VERSION`. -/
def v1Version : String := "1"

/-- Version string of `v2::VERSION` (the current version). -/
def currentVersion : String := "2"

/-- `DatabaseCheckExt::check_database_table`: does `meta` exist. -/
def check_database_table (db : DB) : Bool := db.metaTable

/-- `DatabaseCheckExt::check_database_version`: value at key `version`. -/
def check_database_version (db : DB) : Option String :=
  (db.meta.find? (fun kv => kv.1 == "version")).map (fun kv => kv.2)

/-- `DatabaseCheckExt::insert_database_version`: plain `INSERT` of the
current version under key `version` (uniqueness violation if present). -/
def insert_database_version (db : DB) : Except DBError DB :=
  if db.meta.any (fun kv => kv.1 == "version") then .error .uniqueViolation
  else .ok { db with meta := db.meta ++ [("version", currentVersion)] }

/-- `DatabaseCheckExt::create_db`: run the current DDL, creating all
tables; on the modelled fresh store this makes `meta` exist. -/
def create_db (db : DB) : DB := { db with metaTable := true }

/-- Reassignment of `entry_id` done by `INSERT INTO history_v2 ... SELECT
... FROM history`: rows are copied in rowid order and the autoincrement
key numbers them from 1. -/
def reindexHistory : Int → List HistoryRow → List HistoryRow
  | _, [] => []
  | n, r :: rest => { r with entry_id := n } :: reindexHistory (n + 1) rest

/-- `v2::migration_v1`: rebuild `history` with an autoincrement key keeping
the four data columns, then `UPDATE meta SET value = '2' WHERE key =
'version'`. -/
def migration_v1 (db : DB) : DB :=
  { db with
    history := reindexHistory 1 db.history,
    meta := db.meta.map (fun kv =>
      if kv.1 = "version" then (kv.1, currentVersion) else kv) }

/-- `Database::migration`: run the v1-to-v2 step only when the stored
version string equals `v1::VERSION`; report whether a migration ran. -/
def migration (db : DB) : Except DBError (Bool × DB) :=
  if check_database_version db = some v1Version then
    .ok (true, migration_v1 db)
  else
    .ok (false, db)

/-- `Database::init`: create the schema and record the current version when
the `meta` table is absent, then attempt the migration. -/
def init (db : DB) : Except DBError (Bool × DB) :=
  if !check_database_table db then
    (insert_database_version (create_db db)).bind migration
  else
    migration db

/-- `Database::query_user`. -/
def query_user (db : DB) (user : Int) : Option User :=
  db.users.find? (fun u => u.id == user)

/-- `Database::insert_user`: plain `INSERT INTO users` (uniqueness
violation if the id is present). -/
def insert_user (db : DB) (user : Int) (level : AccessLevel) : Except DBError DB :=
  if db.users.any (fun u => u.id == user) then .error .uniqueViolation
  else .ok { db with users := db.users ++ [⟨user, level.i32⟩] }

/-- `Database::set_authorized_status`: no-op when the stored level already
equals the requested one, otherwise `UPDATE`; insert when absent. -/
def set_authorized_status (db : DB) (user : Int) (level : AccessLevel) :
    Except DBError DB :=
  match query_user db user with
  | some cur =>
    if cur.authorized = level.i32 then .ok db
    else
      .ok { db with users := db.users.map (fun u =>
        if u.id = user then { u with authorized := level.i32 } else u) }
  | none => insert_user db user level

/-- `Database::query_code`. -/
def query_code (db : DB) (code : String) : Option CodeRow :=
  db.codes.find? (fun c => c.code == code)

/-- `Database::insert_code`: `INSERT INTO codes VALUES (?, ?, 0)` (unique
on both `code` and `message_id`), then broadcast the new code. -/
def insert_code (db : DB) (code : String) (message_id : Int) : Except DBError DB :=
  if db.codes.any (fun c => c.code == code || c.message_id == message_id) then
    .error .uniqueViolation
  else
    .ok { db with
      codes := db.codes ++ [⟨code, message_id, false⟩],
      broadcastLog := db.broadcastLog ++ [.NewCode code] }

/-- `Database::set_code_fr`: `UPDATE codes SET fr = ? WHERE code = ?`. -/
def set_code_fr (db : DB) (code : String) (is_fr : Bool) : DB :=
  { db with codes := db.codes.map (fun c =>
      if c.code = code then { c with fr := is_fr } else c) }

/-- `Database::cookie_query`. -/
def cookie_query (db : DB) (id : String) : Option Cookie :=
  db.cookies.find? (fun c => c.id == id)

/-- `Database::cookie_query_user`: all cookies whose `belong` matches. -/
def cookie_query_user (db : DB) (id : Int) : List Cookie :=
  db.cookies.filter (fun c => c.belong == id)

/-- `Database::cookie_set`: refuse when the identifier exists under another
owner; update csrf/session when it exists under the caller; insert fresh
rows with `last_login = 0` and `enabled = 1`. -/
def cookie_set (db : DB) (user : Int) (csrf session id : String) : Bool × DB :=
  match cookie_query db id with
  | some cookie =>
    if cookie.belong ≠ user then (false, db)
    else
      (true, { db with cookies := db.cookies.map (fun c =>
        if c.id = id then { c with csrf_token := csrf, session_id := session } else c) })
  | none =>
    (true, { db with cookies := db.cookies ++ [⟨id, csrf, session, 0, user, true⟩] })

/-- `Database::close`: publish `Exit` on the broadcast channel, then close
the connection. -/
def close (db : DB) : DB :=
  { db with broadcastLog := db.broadcastLog ++ [.Exit], closed := true }

/-- Descending insertion by `entry_id`, building `ORDER BY entry_id DESC`. -/
def insertDesc (r : HistoryRow) : List HistoryRow → List HistoryRow
  | [] => [r]
  | x :: xs => if x.entry_id ≤ r.entry_id then r :: x :: xs else x :: insertDesc r xs

/-- Sort by `entry_id` descending (`ORDER BY entry_id DESC`). -/
def sortByEntryDesc : List HistoryRow → List HistoryRow
  | [] => []
  | x :: xs => insertDesc x (sortByEntryDesc xs)

/-- The four selected columns of a history row. -/
def historyFields (r : HistoryRow) : HistoryRowOut :=
  ⟨r.timestamp, r.id, r.code, r.error⟩

/-- `Database::log_query`: rows of one session id, newest entry first,
at most 20, projected to the four data columns. -/
def log_query (db : DB) (id : String) : List HistoryRowOut :=
  ((sortByEntryDesc (db.history.filter (fun r => r.id == id))).take 20).map historyFields

/-- `Database::log_query_all`: all rows, newest entry first, at most 40. -/
def log_query_all (db : DB) : List HistoryRowOut :=
  ((sortByEntryDesc db.history).take 40).map historyFields

/-- The `LogQuery` arm of `DatabaseHandle::handle_event`: an empty session
id selects the unfiltered query. -/
def handleLogQuery (db : DB) (id : String) : List HistoryRowOut :=
  if id.isEmpty then log_query_all db else log_query db id

/-- The `UserAdd` arm of `DatabaseHandle::handle_event`: insert with the
no-access level only when absent; reply whether the user was absent. -/
def userAdd (db : DB) (user : Int) : Except DBError (Bool × DB) :=
  match query_user db user with
  | some _ => .ok (false, db)
  | none => (insert_user db user .NoAccess).map (fun db2 => (true, db2))

/-- The `CodeFR` arm of `DatabaseHandle::handle_event`: set the `fr` flag
to true, then reply with the freshly queried row. -/
def codeFR (db : DB) (code : String) : Option CodeRow × DB :=
  let db2 := set_code_fr db code true
  (query_code db2 code, db2)

/-- The `CookieCheckCapacity` arm of `DatabaseHandle::handle_event`: pass
when the identifier already exists, or when the owner's current cookie
count is at or below the capacity argument. -/
def cookieCheckCapacity (db : DB) (codename : String) (id : Int) (capacity : Nat) : Bool :=
  (cookie_query db codename).isSome ||
    decide ((cookie_query_user db id).length ≤ capacity)

/-- The coordinator's request type (`DatabaseEvent`), restricted to the
variants the claims are about; reply channels are dropped, replies being
modelled by the per-arm functions above. -/
inductive DatabaseEvent
  | UserAdd (user : Int)
  | UserApprove (user : Int) (level : AccessLevel)
  | UserRevoke (user : Int)
  | CodeAdd (code : String) (message_id : Int)
  | CodeFR (code : String)
  | CookieSet (user : Int) (id : String) (csrf : String) (session : String)
  | CookieCheckCapacity (codename : String) (id : Int) (capacity : Nat)
  | LogQuery (id : String)
  | Terminate
deriving Repr, DecidableEq

/-- Is this the termination request. -/
def DatabaseEvent.isTerminate : DatabaseEvent → Bool
  | .Terminate => true
  | _ => false

/-- `DatabaseHandle::handle_event`: state effect of one request.  The
`Terminate` arm is unreachable from `run`, which breaks out first. -/
def handle_event (db : DB) : DatabaseEvent → Except DBError DB
  | .UserAdd user => (userAdd db user).map Prod.snd
  | .UserApprove user level => set_authorized_status db user level
  | .UserRevoke user => set_authorized_status db user .NoAccess
  | .CodeAdd code message_id => insert_code db code message_id
  | .CodeFR code => .ok (codeFR db code).2
  | .CookieSet user id csrf session => .ok (cookie_set db user csrf session id).2
  | .CookieCheckCapacity _ _ _ => .ok db
  | .LogQuery _ => .ok db
  | .Terminate => .ok db

/-- `DatabaseHandle::run`: drain the queue; break on `Terminate` and close;
on a store error return it at once (the `?` operator) — the close call
after the loop is skipped.  The event list models the queue contents up to
channel closure. -/
def run (db : DB) : List DatabaseEvent → Except DBError Unit × DB
  | [] => (.ok (), close db)
  | e :: rest =>
    if e.isTerminate then (.ok (), close db)
    else
      match handle_event db e with
      | .ok db2 => run db2 rest
      | .error err => (.error err, db)

/-- Model of Rust's `str::to_lowercase` as applied to cookie identifiers
(which the command parser restricts to ASCII word characters): lowercase
every character. -/
def lowerString (s : String) : String := ⟨s.data.map Char.toLower⟩

/-- `NecessaryArg::check_admin` from platform.rs. -/
def check_admin (admins : List Int) (id : Int) : Bool :=
  admins.any (fun x => id == x)

/-- Stored access level as `check_auth` reads it: the `authorized` column
of the user's row, or 0 when the user is unknown. -/
def storedLevel (db : DB) (id : Int) : Int :=
  ((query_user db id).map User.authorized).getD 0

/-- `NecessaryArg::check_auth` from platform.rs: admins pass, otherwise
the requested level is tested against the stored level. -/
def check_auth (admins : List Int) (db : DB) (id : Int) (level : AccessLevel) : Bool :=
  check_admin admins id || level.required (storedLevel db id)

/-- One `setCookie` call sequence as `handle_cookie_command` issues it for
a non-admin caller: the capacity check with ceiling 2 on the raw
identifier, then on success `cookie_set` on the lowercased identifier. -/
def setCookieCall (db : DB) (user : Int) (id csrf session : String) : Bool × DB :=
  if cookieCheckCapacity db id user 2 then
    cookie_set db user csrf session (lowerString id)
  else
    (false, db)

/-- Serialized execution of a batch of `setCookie` call sequences for one
owner, collecting each call's outcome. -/
def setCookieCalls (db : DB) (user : Int) (csrf session : String) :
    List String → List Bool × DB
  | [] => ([], db)
  | id :: rest =>
    let r := setCookieCall db user id csrf session
    let rs := setCookieCalls r.2 user csrf session rest
    (r.1 :: rs.1, rs.2)

/-- The user-management requests of the coordinator, for stating the
last-write-wins property. -/
inductive UOp
  | add
  | approve (level : AccessLevel)
  | revoke
deriving Repr, DecidableEq

/-- State effect of one user-management request on one identity, per
`DatabaseHandle::handle_event`. -/
def applyUOp (db : DB) (user : Int) : UOp → Except DBError DB
  | .add => (userAdd db user).map Prod.snd
  | .approve level => set_authorized_status db user level
  | .revoke => set_authorized_status db user .NoAccess

/-- Serialized execution of a sequence of user-management requests. -/
def applyUOps (user : Int) : DB → List UOp → Except DBError DB
  | db, [] => .ok db
  | db, op :: rest => (applyUOp db user op).bind (fun db2 => applyUOps user db2 rest)

/-- The level written by the last approve or revoke of the sequence (a
revoke writes the no-access level); `none` when the sequence only adds. -/
def lastSetLevel : List UOp → Option Int
  | [] => none
  | UOp.add :: rest => lastSetLevel rest
  | UOp.approve level :: rest => some ((lastSetLevel rest).getD level.i32)
  | UOp.revoke :: rest => some ((lastSetLevel rest).getD AccessLevel.NoAccess.i32)

/-! Helper lemmas about the table operations. -/

/-- A `WHERE code = ?` update commutes with the lookup of the first row
matching that code. -/
theorem query_code_set_fr (l : List CodeRow) (code : String) (b : Bool) :
    (l.map (fun c => if c.code = code then { c with fr := b } else c)).find?
        (fun c => c.code == code) =
      (l.find? (fun c => c.code == code)).map (fun c => { c with fr := b }) := by
  induction l with
  | nil => rfl
  | cons c cs ih =>
    by_cases hc : c.code = code
    · have hcb : (c.code == code) = true := by simpa using hc
      simp only [List.map_cons, if_pos hc, List.find?_cons, hcb, Option.map_some]
      rfl
    · have hcb : (c.code == code) = false := beq_eq_false_iff_ne.mpr hc
      simp only [List.map_cons, if_neg hc, List.find?_cons, hcb]
      exact ih

/-- A `WHERE id = ?` level update commutes with the lookup of the first
row of that user. -/
theorem query_user_update_level (l : List User) (user lvl : Int) :
    (l.map (fun u => if u.id = user then { u with authorized := lvl } else u)).find?
        (fun u => u.id == user) =
      (l.find? (fun u => u.id == user)).map (fun u => { u with authorized := lvl }) := by
  induction l with
  | nil => rfl
  | cons u us ih =>
    by_cases hu : u.id = user
    · have hub : (u.id == user) = true := by simpa using hu
      simp only [List.map_cons, if_pos hu, List.find?_cons, hub, Option.map_some]
      rfl
    · have hub : (u.id == user) = false := beq_eq_false_iff_ne.mpr hu
      simp only [List.map_cons, if_neg hu, List.find?_cons, hub]
      exact ih

/-- The `WHERE key = 'version'` value update commutes with the lookup of
the version row. -/
theorem meta_version_update (l : List (String × String)) (v : String) :
    (l.map (fun kv => if kv.1 = "version" then (kv.1, v) else kv)).find?
        (fun kv => kv.1 == "version") =
      (l.find? (fun kv => kv.1 == "version")).map (fun kv => (kv.1, v)) := by
  induction l with
  | nil => rfl
  | cons kv kvs ih =>
    by_cases hk : kv.1 = "version"
    · have hkb : (kv.1 == "version") = true := by simpa using hk
      simp only [List.map_cons, if_pos hk, List.find?_cons, hkb, Option.map_some]
      rfl
    · have hkb : (kv.1 == "version") = false := beq_eq_false_iff_ne.mpr hk
      simp only [List.map_cons, if_neg hk, List.find?_cons, hkb]
      exact ih

/-- Setting the `fr` flag of one code twice equals setting it once. -/
theorem codes_set_fr_idem (code : String) (l : List CodeRow) :
    (l.map (fun c => if c.code = code then { c with fr := true } else c)).map
        (fun c => if c.code = code then { c with fr := true } else c) =
      l.map (fun c => if c.code = code then { c with fr := true } else c) := by
  induction l with
  | nil => rfl
  | cons c cs ih =>
    simp only [List.map_cons, ih]
    by_cases hc : c.code = code <;> simp [hc]

/-! Claim theorems. -/

/-- C2: a caller is authorized exactly when it is an admin or the bitwise
test `requested | stored > 0` holds, the stored level of an unknown user
counting as 0; the all-access sentinel overlaps every possible request. -/
theorem c2_check_auth_bitwise (admins : List Int) (db : DB) (id : Int)
    (level : AccessLevel) :
    (check_auth admins db id level = true ↔
      (check_admin admins id = true ∨
        0 < Int.lor level.i32 (((query_user db id).map User.authorized).getD 0))) ∧
    (∀ req : AccessLevel, 0 < Int.lor req.i32 AccessLevel.All.i32) := by
  constructor
  · simp [check_auth, AccessLevel.required, storedLevel]
  · intro req
    cases req <;> decide

/-- C4 counterexample: on a store whose `meta` table is present with the
unrecognized version string "0", `init` succeeds with no migration and no
state change instead of failing with a schema error. -/
theorem c4_counterexample :
    init ⟨true, [("version", "0")], [], [], [], [], [], false⟩ =
      .ok (false, ⟨true, [("version", "0")], [], [], [], [], [], false⟩) ∧
    init ⟨true, [("version", "0")], [], [], [], [], [], false⟩ ≠
      .error DBError.uniqueViolation := by
  have h0 : init (⟨true, [("version", "0")], [], [], [], [], [], false⟩ : DB) =
      .ok (false, ⟨true, [("version", "0")], [], [], [], [], [], false⟩) := rfl
  refine ⟨h0, ?_⟩
  rw [h0]
  simp

/-- C4 amended: when the metadata table is present and the stored version
is neither the migratable v1 string nor the current one, initialisation
succeeds, reporting no migration and leaving the store unchanged. -/
theorem c4_init_unrecognized_version_succeeds (db : DB)
    (htab : db.metaTable = true)
    (h1 : check_database_version db ≠ some v1Version)
    (_h2 : check_database_version db ≠ some currentVersion) :
    init db = .ok (false, db) := by
  unfold init migration
  simp [check_database_table, htab, h1]

/-- Witness for the amended C4 at a concrete version-"9" store. -/
theorem c4_witness :
    init ⟨true, [("version", "9")], [], [], [], [], [], false⟩ =
      .ok (false, ⟨true, [("version", "9")], [], [], [], [], [], false⟩) :=
  c4_init_unrecognized_version_succeeds _ rfl (by decide) (by decide)

/-- C5: `setCookie` on an identifier stored under a different owner refuses
and leaves the store — in particular every field of the existing row —
unchanged. -/
theorem c5_cookie_set_foreign_owner_refuses (db : DB) (user : Int)
    (csrf session id : String) (c : Cookie)
    (hq : cookie_query db id = some c) (hb : c.belong ≠ user) :
    cookie_set db user csrf session id = (false, db) := by
  unfold cookie_set
  rw [hq]
  simp [hb]

/-- Witness for C5 at a concrete store with one cookie of owner 5. -/
theorem c5_witness :
    cookie_set ⟨true, [], [], [], [⟨"king", "t", "s", 0, 5, true⟩], [], [], false⟩
        6 "t2" "s2" "king" =
      (false, ⟨true, [], [], [], [⟨"king", "t", "s", 0, 5, true⟩], [], [], false⟩) :=
  c5_cookie_set_foreign_owner_refuses _ 6 "t2" "s2" "king"
    ⟨"king", "t", "s", 0, 5, true⟩ rfl (by decide)

/-- C7: `finalizeCode` is idempotent on the stored state; the finalized
flag of a stored token becomes true, and a call on an already finalized
token leaves its row exactly as it was. -/
theorem c7_finalize_code_idempotent (db : DB) (code : String) (r : CodeRow)
    (h : query_code db code = some r) :
    (codeFR (codeFR db code).2 code).2 = (codeFR db code).2 ∧
    query_code (codeFR db code).2 code = some { r with fr := true } ∧
    (r.fr = true → query_code (codeFR db code).2 code = some r) := by
  have hq : query_code (set_code_fr db code true) code =
      some { r with fr := true } := by
    have h2 : db.codes.find? (fun c => c.code == code) = some r := h
    show ((db.codes.map (fun c => if c.code = code then { c with fr := true } else c)).find?
        (fun c => c.code == code)) = some { r with fr := true }
    rw [query_code_set_fr, h2]
    rfl
  refine ⟨?_, ?_, ?_⟩
  · show set_code_fr (set_code_fr db code true) code true = set_code_fr db code true
    unfold set_code_fr
    simp only [codes_set_fr_idem]
  · exact hq
  · intro hfr
    have hr : ({ r with fr := true } : CodeRow) = r := by
      obtain ⟨rc, rm, rf⟩ := r
      simp_all
    show query_code (set_code_fr db code true) code = some r
    rw [hq, hr]

/-- Witness for C7 at a concrete store with one unfinalized code. -/
theorem c7_witness :
    (codeFR (codeFR ⟨true, [], [], [⟨"abcde", 9, false⟩], [], [], [], false⟩ "abcde").2
        "abcde").2 =
      (codeFR ⟨true, [], [], [⟨"abcde", 9, false⟩], [], [], [], false⟩ "abcde").2 ∧
    query_code (codeFR ⟨true, [], [], [⟨"abcde", 9, false⟩], [], [], [], false⟩ "abcde").2
        "abcde" = some { (⟨"abcde", 9, false⟩ : CodeRow) with fr := true } ∧
    ((⟨"abcde", 9, false⟩ : CodeRow).fr = true →
      query_code (codeFR ⟨true, [], [], [⟨"abcde", 9, false⟩], [], [], [], false⟩
          "abcde").2 "abcde" = some ⟨"abcde", 9, false⟩) :=
  c7_finalize_code_idempotent ⟨true, [], [], [⟨"abcde", 9, false⟩], [], [], [], false⟩
    "abcde" ⟨"abcde", 9, false⟩ rfl

/-- C10: the `UserAdd` request replies true exactly when the identity was
absent before the call, inserts the identity with the no-access level when
absent, and leaves the store untouched when the identity is present. -/
theorem c10_user_add_absent_iff (db : DB) (user : Int) :
    userAdd db user = .ok ((query_user db user).isNone,
      if query_user db user = none
      then { db with users := db.users ++ [⟨user, AccessLevel.NoAccess.i32⟩] }
      else db) := by
  unfold userAdd
  cases h : query_user db user with
  | some u => simp [h]
  | none =>
    have h2 : db.users.find? (fun u => u.id == user) = none := h
    have hany : db.users.any (fun u => u.id == user) = false := by
      rw [List.any_eq_false]
      intro x hx
      exact List.find?_eq_none.mp h2 x hx
    simp [insert_user, h, hany, Except.map]

/-- A successful `insert_user` touches only the `users` table. -/
theorem insert_user_fields (db : DB) (user : Int) (level : AccessLevel) (db2 : DB)
    (h : insert_user db user level = .ok db2) :
    db2.closed = db.closed ∧ db2.broadcastLog = db.broadcastLog := by
  unfold insert_user at h
  split at h
  · simp at h
  · injection h with h2
    subst h2
    exact ⟨rfl, rfl⟩

/-- A successful `set_authorized_status` touches only the `users` table. -/
theorem set_authorized_status_fields (db : DB) (user : Int) (level : AccessLevel)
    (db2 : DB) (h : set_authorized_status db user level = .ok db2) :
    db2.closed = db.closed ∧ db2.broadcastLog = db.broadcastLog := by
  unfold set_authorized_status at h
  split at h
  · split at h
    · injection h with h2
      subst h2
      exact ⟨rfl, rfl⟩
    · injection h with h2
      subst h2
      exact ⟨rfl, rfl⟩
  · exact insert_user_fields db user level db2 h

/-- A successful `insert_code` leaves the connection open and appends only
a `NewCode` event to the broadcast log. -/
theorem insert_code_fields (db : DB) (code : String) (message_id : Int) (db2 : DB)
    (h : insert_code db code message_id = .ok db2) :
    db2.closed = db.closed ∧ db2.broadcastLog = db.broadcastLog ++ [.NewCode code] := by
  unfold insert_code at h
  split at h
  · simp at h
  · injection h with h2
    subst h2
    exact ⟨rfl, rfl⟩

/-- `cookie_set` touches only the `cookies` table. -/
theorem cookie_set_fields (db : DB) (user : Int) (csrf session id : String) :
    (cookie_set db user csrf session id).2.closed = db.closed ∧
    (cookie_set db user csrf session id).2.broadcastLog = db.broadcastLog := by
  cases hq : cookie_query db id with
  | some c =>
    by_cases hb : c.belong = user
    · simp [cookie_set, hq, hb]
    · simp [cookie_set, hq, hb]
  | none => simp [cookie_set, hq]

/-- Any successfully handled request leaves the connection open and never
publishes the shutdown event: only `close` does either. -/
theorem handle_event_preserves (db : DB) (e : DatabaseEvent) (db2 : DB)
    (h : handle_event db e = .ok db2) :
    db2.closed = db.closed ∧
      (BroadcastEvent.Exit ∈ db2.broadcastLog ↔ BroadcastEvent.Exit ∈ db.broadcastLog) := by
  cases e with
  | UserAdd user =>
    simp only [handle_event] at h
    cases hu : userAdd db user with
    | error e2 =>
      rw [hu] at h
      simp [Except.map] at h
    | ok p =>
      obtain ⟨b, db3⟩ := p
      rw [hu] at h
      simp only [Except.map] at h
      injection h with h2
      subst h2
      unfold userAdd at hu
      split at hu
      · injection hu with h3
        injection h3 with hb hdb
        subst hdb
        exact ⟨rfl, Iff.rfl⟩
      · cases hins : insert_user db user AccessLevel.NoAccess with
        | error e2 => rw [hins] at hu; simp [Except.map] at hu
        | ok db4 =>
          rw [hins] at hu
          simp only [Except.map] at hu
          injection hu with h3
          injection h3 with hb hdb
          subst hdb
          have hf := insert_user_fields db user AccessLevel.NoAccess db4 hins
          exact ⟨hf.1, by rw [hf.2]⟩
  | UserApprove user level =>
    have hf := set_authorized_status_fields db user level db2 h
    exact ⟨hf.1, by rw [hf.2]⟩
  | UserRevoke user =>
    have hf := set_authorized_status_fields db user AccessLevel.NoAccess db2 h
    exact ⟨hf.1, by rw [hf.2]⟩
  | CodeAdd code message_id =>
    have hf := insert_code_fields db code message_id db2 h
    refine ⟨hf.1, ?_⟩
    rw [hf.2]
    simp
  | CodeFR code =>
    injection h with h2
    subst h2
    exact ⟨rfl, Iff.rfl⟩
  | CookieSet user id csrf session =>
    injection h with h2
    subst h2
    have hf := cookie_set_fields db user csrf session id
    exact ⟨hf.1, by rw [hf.2]⟩
  | CookieCheckCapacity codename id capacity =>
    injection h with h2
    subst h2
    exact ⟨rfl, Iff.rfl⟩
  | LogQuery id =>
    injection h with h2
    subst h2
    exact ⟨rfl, Iff.rfl⟩
  | Terminate =>
    injection h with h2
    subst h2
    exact ⟨rfl, Iff.rfl⟩

/-- C3 amended: when a store operation fails, the coordinator loop
terminates at once with that error, without closing the store and without
publishing the terminal `Exit` event (which only the graceful close path
does). -/
theorem c3_store_error_skips_close (db db2 : DB) (evs : List DatabaseEvent)
    (err : DBError) (hc : db.closed = false)
    (hb : BroadcastEvent.Exit ∉ db.broadcastLog)
    (hrun : run db evs = (.error err, db2)) :
    db2.closed = false ∧ BroadcastEvent.Exit ∉ db2.broadcastLog := by
  induction evs generalizing db with
  | nil =>
    simp only [run] at hrun
    simp at hrun
  | cons e rest ih =>
    simp only [run] at hrun
    by_cases ht : e.isTerminate = true
    · rw [if_pos ht] at hrun
      simp at hrun
    · rw [if_neg ht] at hrun
      cases hh : handle_event db e with
      | ok db3 =>
        rw [hh] at hrun
        have hp := handle_event_preserves db e db3 hh
        exact ih db3 (hp.1.trans hc) (fun hmem => hb (hp.2.mp hmem)) hrun
      | error e2 =>
        rw [hh] at hrun
        have h2 : ((Except.error e2 : Except DBError Unit), db) =
            ((Except.error err : Except DBError Unit), db2) := hrun
        have hdb : db = db2 := congrArg Prod.snd h2
        subst hdb
        exact ⟨hc, hb⟩

/-- C3 counterexample: a duplicate-code insert makes the loop stop with the
store error while the connection is still open and no `Exit` was ever
published, refuting that the loop closes the store before terminating. -/
theorem c3_counterexample :
    (run ⟨true, [], [], [⟨"x", 1, false⟩], [], [], [], false⟩
        [DatabaseEvent.CodeAdd "x" 2]).1 = .error DBError.uniqueViolation ∧
    (run ⟨true, [], [], [⟨"x", 1, false⟩], [], [], [], false⟩
        [DatabaseEvent.CodeAdd "x" 2]).2.closed = false ∧
    BroadcastEvent.Exit ∉
      (run ⟨true, [], [], [⟨"x", 1, false⟩], [], [], [], false⟩
        [DatabaseEvent.CodeAdd "x" 2]).2.broadcastLog := by
  refine ⟨rfl, rfl, ?_⟩
  decide

/-- Witness for the amended C3 on a concrete erroring run. -/
theorem c3_witness :
    (⟨true, [], [], [⟨"x", 1, false⟩], [], [], [], false⟩ : DB).closed = false ∧
    BroadcastEvent.Exit ∉
      (⟨true, [], [], [⟨"x", 1, false⟩], [], [], [], false⟩ : DB).broadcastLog :=
  c3_store_error_skips_close ⟨true, [], [], [⟨"x", 1, false⟩], [], [], [], false⟩
    ⟨true, [], [], [⟨"x", 1, false⟩], [], [], [], false⟩
    [DatabaseEvent.CodeAdd "x" 2] DBError.uniqueViolation rfl (by decide) rfl

/-- Reindexing the copied history rows preserves the four data columns. -/
theorem reindexHistory_fields (n : Int) (l : List HistoryRow) :
    (reindexHistory n l).map historyFields = l.map historyFields := by
  induction l generalizing n with
  | nil => rfl
  | cons r rest ih => simp [reindexHistory, historyFields, ih]

/-- Reindexing the copied history rows preserves the row count. -/
theorem reindexHistory_length (n : Int) (l : List HistoryRow) :
    (reindexHistory n l).length = l.length := by
  have h := congrArg List.length (reindexHistory_fields n l)
  simpa using h

/-- C8: on any version-1 store, the v1-to-v2 migration preserves the
history row count and the timestamp, session id, code and error values of
every row (the autoincrement surrogate key aside), and records schema
version "2". -/
theorem c8_migration_v1_preserves (db : DB)
    (h : check_database_version db = some "1") :
    (migration_v1 db).history.map historyFields = db.history.map historyFields ∧
    (migration_v1 db).history.length = db.history.length ∧
    check_database_version (migration_v1 db) = some "2" := by
  refine ⟨reindexHistory_fields 1 db.history, reindexHistory_length 1 db.history, ?_⟩
  have h2 : (db.meta.find? (fun kv => kv.1 == "version")).map (fun kv => kv.2) =
      some "1" := h
  show ((db.meta.map (fun kv =>
      if kv.1 = "version" then (kv.1, currentVersion) else kv)).find?
        (fun kv => kv.1 == "version")).map (fun kv => kv.2) = some "2"
  rw [meta_version_update]
  cases hf : db.meta.find? (fun kv => kv.1 == "version") with
  | none =>
    rw [hf] at h2
    simp at h2
  | some kv => rfl

/-- Witness for C8 on a concrete two-row version-1 store. -/
theorem c8_witness :
    (migration_v1 ⟨true, [("version", "1")], [], [], [],
        [⟨5, 100, "s", "c", none⟩, ⟨9, 200, "t", "d", some "e"⟩], [],
        false⟩).history.map historyFields =
      (⟨true, [("version", "1")], [], [], [],
        [⟨5, 100, "s", "c", none⟩, ⟨9, 200, "t", "d", some "e"⟩], [],
        false⟩ : DB).history.map historyFields ∧
    (migration_v1 ⟨true, [("version", "1")], [], [], [],
        [⟨5, 100, "s", "c", none⟩, ⟨9, 200, "t", "d", some "e"⟩], [],
        false⟩).history.length =
      (⟨true, [("version", "1")], [], [], [],
        [⟨5, 100, "s", "c", none⟩, ⟨9, 200, "t", "d", some "e"⟩], [],
        false⟩ : DB).history.length ∧
    check_database_version (migration_v1 ⟨true, [("version", "1")], [], [], [],
        [⟨5, 100, "s", "c", none⟩, ⟨9, 200, "t", "d", some "e"⟩], [],
        false⟩) = some "2" :=
  c8_migration_v1_preserves ⟨true, [("version", "1")], [], [], [],
    [⟨5, 100, "s", "c", none⟩, ⟨9, 200, "t", "d", some "e"⟩], [], false⟩ rfl

/-- Inserting a row older than everything already sorted appends it. -/
theorem insertDesc_append (r : HistoryRow) (l : List HistoryRow)
    (h : ∀ x ∈ l, r.entry_id < x.entry_id) :
    insertDesc r l = l ++ [r] := by
  induction l with
  | nil => rfl
  | cons x xs ih =>
    have hx : ¬x.entry_id ≤ r.entry_id := not_le.mpr (h x (by simp))
    simp only [insertDesc, if_neg hx]
    rw [ih (fun y hy => h y (by simp [hy]))]
    rfl

/-- On a strictly ascending list the descending sort is the reverse. -/
theorem sortByEntryDesc_ascending (l : List HistoryRow)
    (h : l.Pairwise (fun x y => x.entry_id < y.entry_id)) :
    sortByEntryDesc l = l.reverse := by
  induction l with
  | nil => rfl
  | cons x xs ih =>
    rw [List.pairwise_cons] at h
    simp only [sortByEntryDesc]
    rw [ih h.2, insertDesc_append x xs.reverse
      (fun y hy => h.1 y (List.mem_reverse.mp hy)), List.reverse_cons]

/-- C9: under the autoincrement invariant (entry ids strictly increasing in
rowid order), the session-filtered history query returns at most the 20
most recent rows of that session newest-first, and the empty-id query
returns at most the 40 most recent rows system-wide newest-first. -/
theorem c9_history_queries (db : DB) (sid : String)
    (hasc : db.history.Pairwise (fun x y => x.entry_id < y.entry_id))
    (hs : sid.isEmpty = false) :
    handleLogQuery db sid =
      (((db.history.filter (fun r => r.id == sid)).reverse).take 20).map historyFields ∧
    (handleLogQuery db sid).length ≤ 20 ∧
    handleLogQuery db "" = ((db.history.reverse).take 40).map historyFields ∧
    (handleLogQuery db "").length ≤ 40 := by
  have hfil : sortByEntryDesc (db.history.filter (fun r => r.id == sid)) =
      (db.history.filter (fun r => r.id == sid)).reverse :=
    sortByEntryDesc_ascending _ (hasc.filter _)
  have hall : sortByEntryDesc db.history = db.history.reverse :=
    sortByEntryDesc_ascending _ hasc
  have h1 : handleLogQuery db sid =
      (((db.history.filter (fun r => r.id == sid)).reverse).take 20).map historyFields := by
    unfold handleLogQuery log_query
    rw [if_neg (by simp [hs]), hfil]
  have h2 : handleLogQuery db "" = ((db.history.reverse).take 40).map historyFields := by
    unfold handleLogQuery log_query_all
    rw [if_pos (by decide), hall]
  refine ⟨h1, ?_, h2, ?_⟩
  · rw [h1, List.length_map, List.length_take]
    exact min_le_left _ _
  · rw [h2, List.length_map, List.length_take]
    exact min_le_left _ _

/-- Witness for C9 on a concrete three-row store. -/
theorem c9_witness :
    handleLogQuery ⟨true, [], [], [], [],
        [⟨1, 10, "s", "c1", none⟩, ⟨2, 11, "t", "c2", none⟩,
          ⟨3, 12, "s", "c3", some "e"⟩], [], false⟩ "s" =
      ((((⟨true, [], [], [], [],
        [⟨1, 10, "s", "c1", none⟩, ⟨2, 11, "t", "c2", none⟩,
          ⟨3, 12, "s", "c3", some "e"⟩], [], false⟩ : DB).history.filter
            (fun r => r.id == "s")).reverse).take 20).map historyFields ∧
    (handleLogQuery ⟨true, [], [], [], [],
        [⟨1, 10, "s", "c1", none⟩, ⟨2, 11, "t", "c2", none⟩,
          ⟨3, 12, "s", "c3", some "e"⟩], [], false⟩ "s").length ≤ 20 ∧
    handleLogQuery ⟨true, [], [], [], [],
        [⟨1, 10, "s", "c1", none⟩, ⟨2, 11, "t", "c2", none⟩,
          ⟨3, 12, "s", "c3", some "e"⟩], [], false⟩ "" =
      (((⟨true, [], [], [], [],
        [⟨1, 10, "s", "c1", none⟩, ⟨2, 11, "t", "c2", none⟩,
          ⟨3, 12, "s", "c3", some "e"⟩], [], false⟩ : DB).history.reverse).take 40).map
        historyFields ∧
    (handleLogQuery ⟨true, [], [], [], [],
        [⟨1, 10, "s", "c1", none⟩, ⟨2, 11, "t", "c2", none⟩,
          ⟨3, 12, "s", "c3", some "e"⟩], [], false⟩ "").length ≤ 40 :=
  c9_history_queries ⟨true, [], [], [], [],
    [⟨1, 10, "s", "c1", none⟩, ⟨2, 11, "t", "c2", none⟩,
      ⟨3, 12, "s", "c3", some "e"⟩], [], false⟩ "s" (by decide) (by decide)

/-- `set_authorized_status` always succeeds and afterwards the stored level
of the target identity is exactly the requested one. -/
theorem set_authorized_status_ok (db : DB) (user : Int) (level : AccessLevel) :
    ∃ db2, set_authorized_status db user level = .ok db2 ∧
      (query_user db2 user).map User.authorized = some level.i32 := by
  cases hq : query_user db user with
  | some cur =>
    by_cases he : cur.authorized = level.i32
    · refine ⟨db, ?_, ?_⟩
      · unfold set_authorized_status
        rw [hq]
        simp [he]
      · rw [hq]
        simp [he]
    · refine ⟨{ db with users := db.users.map (fun u =>
          if u.id = user then { u with authorized := level.i32 } else u) }, ?_, ?_⟩
      · unfold set_authorized_status
        rw [hq]
        simp [he]
      · show ((db.users.map (fun u =>
            if u.id = user then { u with authorized := level.i32 } else u)).find?
              (fun u => u.id == user)).map User.authorized = some level.i32
        rw [query_user_update_level]
        have h2 : db.users.find? (fun u => u.id == user) = some cur := hq
        rw [h2]
        rfl
  | none =>
    have h2 : db.users.find? (fun u => u.id == user) = none := hq
    have hany : db.users.any (fun u => u.id == user) = false := by
      rw [List.any_eq_false]
      intro x hx
      exact List.find?_eq_none.mp h2 x hx
    refine ⟨{ db with users := db.users ++ [⟨user, level.i32⟩] }, ?_, ?_⟩
    · unfold set_authorized_status insert_user
      rw [hq]
      simp [hany]
    · show ((db.users ++ [(⟨user, level.i32⟩ : User)]).find?
          (fun u => u.id == user)).map User.authorized = some level.i32
      rw [List.find?_append, h2]
      simp [List.find?_cons]

/-- A `UserAdd` on a present identity changes nothing and replies false. -/
theorem userAdd_present (db : DB) (user : Int) (u : User)
    (hq : query_user db user = some u) : userAdd db user = .ok (false, db) := by
  unfold userAdd
  rw [hq]

/-- A `UserAdd` on an absent identity inserts the no-access row and replies
true. -/
theorem userAdd_absent (db : DB) (user : Int)
    (hq : query_user db user = none) :
    userAdd db user =
      .ok (true, { db with users := db.users ++ [⟨user, AccessLevel.NoAccess.i32⟩] }) := by
  have h2 : db.users.find? (fun u => u.id == user) = none := hq
  have hany : db.users.any (fun u => u.id == user) = false := by
    rw [List.any_eq_false]
    intro x hx
    exact List.find?_eq_none.mp h2 x hx
  unfold userAdd insert_user
  rw [hq]
  simp [hany, Except.map]

/-- A sequence whose `lastSetLevel` is `none` consists only of adds. -/
theorem lastSetLevel_none_all_add (ops : List UOp) (h : lastSetLevel ops = none) :
    ∀ op ∈ ops, op = UOp.add := by
  induction ops with
  | nil => simp
  | cons op rest ih =>
    cases op with
    | add =>
      simp only [lastSetLevel] at h
      intro op2 hop2
      rcases List.mem_cons.mp hop2 with h3 | h3
      · exact h3
      · exact ih h op2 h3
    | approve level => simp [lastSetLevel] at h
    | revoke => simp [lastSetLevel] at h

/-- Add-only request sequences leave a present identity's store unchanged. -/
theorem applyUOps_all_add (user : Int) (ops : List UOp)
    (hall : ∀ op ∈ ops, op = UOp.add) :
    ∀ db : DB, (query_user db user).isSome → applyUOps user db ops = .ok db := by
  induction ops with
  | nil =>
    intro db _
    rfl
  | cons op rest ih =>
    intro db hq
    have hop : op = UOp.add := hall op (by simp)
    subst hop
    cases hqq : query_user db user with
    | none =>
      rw [hqq] at hq
      simp at hq
    | some u =>
      have h1 : applyUOp db user UOp.add = .ok db := by
        show (userAdd db user).map Prod.snd = .ok db
        rw [userAdd_present db user u hqq]
        rfl
      show (applyUOp db user UOp.add).bind (fun db2 => applyUOps user db2 rest) = .ok db
      rw [h1]
      show applyUOps user db rest = .ok db
      exact ih (fun op2 hop2 => hall op2 (List.mem_cons_of_mem _ hop2)) db hq

/-- C6: after any serialized sequence of add, approve and revoke requests
on one identity containing at least one approve or revoke, the stored
access level equals exactly the level written by the last approve (the
no-access level for a revoke), regardless of the prior value. -/
theorem c6_last_write_wins (db db2 : DB) (user : Int) (ops : List UOp) (lvl : Int)
    (h : lastSetLevel ops = some lvl)
    (happ : applyUOps user db ops = .ok db2) :
    (query_user db2 user).map User.authorized = some lvl := by
  induction ops generalizing db with
  | nil => simp [lastSetLevel] at h
  | cons op rest ih =>
    cases op with
    | add =>
      simp only [lastSetLevel] at h
      simp only [applyUOps] at happ
      cases hq : query_user db user with
      | some u =>
        rw [show applyUOp db user UOp.add = .ok db from by
          show (userAdd db user).map Prod.snd = .ok db
          rw [userAdd_present db user u hq]
          rfl] at happ
        simp only [Except.bind] at happ
        exact ih db h happ
      | none =>
        rw [show applyUOp db user UOp.add =
            .ok { db with users := db.users ++ [⟨user, AccessLevel.NoAccess.i32⟩] } from by
          show (userAdd db user).map Prod.snd = _
          rw [userAdd_absent db user hq]
          rfl] at happ
        simp only [Except.bind] at happ
        exact ih _ h happ
    | approve level =>
      simp only [applyUOps] at happ
      obtain ⟨db3, hset, hq3⟩ := set_authorized_status_ok db user level
      rw [show applyUOp db user (UOp.approve level) = .ok db3 from hset] at happ
      simp only [Except.bind] at happ
      simp only [lastSetLevel] at h
      cases hr : lastSetLevel rest with
      | some lvl2 =>
        rw [hr] at h
        simp at h
        exact ih db3 (by rw [hr, h]) happ
      | none =>
        rw [hr] at h
        simp at h
        have hall := lastSetLevel_none_all_add rest hr
        have hsome : (query_user db3 user).isSome := by
          cases hqq : query_user db3 user with
          | none =>
            rw [hqq] at hq3
            simp at hq3
          | some u2 => simp
        have happ3 := applyUOps_all_add user rest hall db3 hsome
        rw [happ3] at happ
        injection happ with h4
        subst h4
        rw [hq3, h]
    | revoke =>
      simp only [applyUOps] at happ
      obtain ⟨db3, hset, hq3⟩ := set_authorized_status_ok db user AccessLevel.NoAccess
      rw [show applyUOp db user UOp.revoke = .ok db3 from hset] at happ
      simp only [Except.bind] at happ
      simp only [lastSetLevel] at h
      cases hr : lastSetLevel rest with
      | some lvl2 =>
        rw [hr] at h
        simp at h
        exact ih db3 (by rw [hr, h]) happ
      | none =>
        rw [hr] at h
        simp at h
        have hall := lastSetLevel_none_all_add rest hr
        have hsome : (query_user db3 user).isSome := by
          cases hqq : query_user db3 user with
          | none =>
            rw [hqq] at hq3
            simp at hq3
          | some u2 => simp
        have happ3 := applyUOps_all_add user rest hall db3 hsome
        rw [happ3] at happ
        injection happ with h4
        subst h4
        rw [hq3, h]

/-- Witness for C6 on a concrete add, approve, revoke, approve run. -/
theorem c6_witness :
    (query_user ⟨true, [], [⟨7, 4⟩], [], [], [], [], false⟩ 7).map User.authorized =
      some 4 :=
  c6_last_write_wins ⟨true, [], [], [], [], [], [], false⟩
    ⟨true, [], [⟨7, 4⟩], [], [], [], [], false⟩ 7
    [UOp.add, UOp.approve AccessLevel.Cookie, UOp.revoke, UOp.approve AccessLevel.All]
    4 rfl rfl

/-- A `setCookie` call sequence on a fresh lowercase identifier with the
owner's cookie count at or below the ceiling succeeds and appends the
cookie. -/
theorem setCookieCall_fresh (db : DB) (user : Int) (id csrf session : String)
    (hl : lowerString id = id) (hf : cookie_query db id = none)
    (hcap : (cookie_query_user db user).length ≤ 2) :
    setCookieCall db user id csrf session =
      (true, { db with cookies := db.cookies ++ [⟨id, csrf, session, 0, user, true⟩] }) := by
  have hcc : cookieCheckCapacity db id user 2 = true := by
    unfold cookieCheckCapacity
    rw [hf]
    simp [hcap]
  unfold setCookieCall
  rw [if_pos hcc, hl]
  unfold cookie_set
  rw [hf]

/-- Appending a cookie with a different identifier keeps an identifier
absent. -/
theorem cookie_query_append_ne (db : DB) (c0 : Cookie) (id : String)
    (hf : cookie_query db id = none) (hne : c0.id ≠ id) :
    cookie_query { db with cookies := db.cookies ++ [c0] } id = none := by
  have h2 : db.cookies.find? (fun c => c.id == id) = none := hf
  have hb : (c0.id == id) = false := beq_eq_false_iff_ne.mpr hne
  show (db.cookies ++ [c0]).find? (fun c => c.id == id) = none
  rw [List.find?_append, h2]
  simp [List.find?_cons, hb]

/-- Appending a cookie of the owner grows the owner's cookie list by one. -/
theorem cookie_query_user_append (db : DB) (c0 : Cookie) (user : Int)
    (hb : c0.belong = user) :
    cookie_query_user { db with cookies := db.cookies ++ [c0] } user =
      cookie_query_user db user ++ [c0] := by
  have hbb : (c0.belong == user) = true := by simpa using hb
  show (db.cookies ++ [c0]).filter (fun c => c.belong == user) = _
  rw [List.filter_append]
  simp [List.filter_cons, hbb]
  rfl

/-- All `setCookie` call sequences of a batch of pairwise distinct fresh
lowercase identifiers succeed as long as the owner's final count stays
within what the at-or-below-ceiling test admits. -/
theorem setCookieCalls_fresh (user : Int) (csrf session : String) :
    ∀ (ids : List String) (db : DB),
      ids.Pairwise (fun x y => x ≠ y) →
      (∀ id ∈ ids, lowerString id = id) →
      (∀ id ∈ ids, cookie_query db id = none) →
      (cookie_query_user db user).length + ids.length ≤ 3 →
      (setCookieCalls db user csrf session ids).1 = ids.map (fun _ => true) := by
  intro ids
  induction ids with
  | nil =>
    intro db _ _ _ _
    rfl
  | cons id rest ih =>
    intro db hdist hlow hfresh hcap
    have hl : lowerString id = id := hlow id (by simp)
    have hf : cookie_query db id = none := hfresh id (by simp)
    have hcap1 : (cookie_query_user db user).length ≤ 2 := by
      simp only [List.length_cons] at hcap
      omega
    have s1 := setCookieCall_fresh db user id csrf session hl hf hcap1
    have hpw := List.pairwise_cons.mp hdist
    show ((setCookieCall db user id csrf session).1 ::
        (setCookieCalls (setCookieCall db user id csrf session).2 user csrf
          session rest).1) = true :: rest.map (fun _ => true)
    rw [s1]
    show true :: (setCookieCalls
        { db with cookies := db.cookies ++ [⟨id, csrf, session, 0, user, true⟩] }
        user csrf session rest).1 = true :: rest.map (fun _ => true)
    have hq1 := cookie_query_user_append db ⟨id, csrf, session, 0, user, true⟩ user rfl
    have htail := ih { db with cookies := db.cookies ++ [⟨id, csrf, session, 0, user, true⟩] }
      hpw.2
      (fun id2 h2 => hlow id2 (List.mem_cons_of_mem _ h2))
      (fun id2 h2 => cookie_query_append_ne db ⟨id, csrf, session, 0, user, true⟩ id2
        (hfresh id2 (List.mem_cons_of_mem _ h2)) (hpw.1 id2 h2))
      (by
        rw [hq1]
        simp only [List.length_append, List.length_cons, List.length_nil] at hcap ⊢
        omega)
    rw [htail]

/-- C1 counterexample: for an owner with zero cookies and the handler's
ceiling argument 2, three serialized `setCookie` call sequences with
distinct fresh identifiers do not yield 2 successes and 1 refusal — all
three succeed, because the capacity test accepts a count at or equal to
the ceiling. -/
theorem c1_counterexample :
    ¬(((setCookieCalls ⟨true, [], [], [], [], [], [], false⟩ 1 "cs" "ss"
          ["a", "b", "c"]).1.count true = 2) ∧
      ((setCookieCalls ⟨true, [], [], [], [], [], [], false⟩ 1 "cs" "ss"
          ["a", "b", "c"]).1.count false = 1)) := by
  decide

/-- C1 amended: with the handler's ceiling argument 2 and the owner
starting at zero cookies, three serialized `setCookie` call sequences with
pairwise distinct fresh lowercase identifiers yield 3 successes and 0
refusals; the identifier triple is arbitrary, so every arrival order of
three fixed identifiers is covered.  A refusal first occurs on a fourth
call, since the capacity test accepts a count at or below the ceiling. -/
theorem c1_three_fresh_calls_all_succeed (db : DB) (user : Int)
    (csrf session a b c : String)
    (hla : lowerString a = a) (hlb : lowerString b = b) (hlc : lowerString c = c)
    (hab : a ≠ b) (hac : a ≠ c) (hbc : b ≠ c)
    (hfa : cookie_query db a = none) (hfb : cookie_query db b = none)
    (hfc : cookie_query db c = none)
    (hown : cookie_query_user db user = []) :
    (setCookieCalls db user csrf session [a, b, c]).1 = [true, true, true] := by
  have h := setCookieCalls_fresh user csrf session [a, b, c] db
    (by simp [List.pairwise_cons, hab, hac, hbc])
    (by
      intro id hid
      simp only [List.mem_cons, List.not_mem_nil, or_false] at hid
      rcases hid with rfl | rfl | rfl <;> assumption)
    (by
      intro id hid
      simp only [List.mem_cons, List.not_mem_nil, or_false] at hid
      rcases hid with rfl | rfl | rfl <;> assumption)
    (by simp [hown])
  simpa using h

/-- Witness for the amended C1 on an empty store. -/
theorem c1_witness :
    (setCookieCalls ⟨true, [], [], [], [], [], [], false⟩ 1 "cs" "ss"
      ["a", "b", "c"]).1 = [true, true, true] :=
  c1_three_fresh_calls_all_succeed ⟨true, [], [], [], [], [], [], false⟩ 1 "cs" "ss"
    "a" "b" "c" (by decide) (by decide) (by decide) (by decide) (by decide) (by decide)
    rfl rfl rfl rfl

end PasscodeMaster
